import Mathlib

/-!
Verification of the binary-heap priority queue in `src/lib.rs`
(`jawline/rustPriorityQueue`).

The Rust code is shallowly embedded: `Vec<PriorityItem<R, T>>` becomes
`List (PriorityItem R T)`, `usize` indices become `Nat`, and the two
`while` loops (sift-up in `insert`, sift-down in `take`) become
fuel-indexed recursive functions, invoked with enough fuel (fuel
sufficiency is proved separately).  Rust indexing panics out of bounds;
the primary embedding returns a neutral value there (`false` for a
comparison, the unchanged list for a swap), and "checked" twins that
model a panic as `none` are used to prove those branches unreachable.
-/

namespace RustPQ

/-- `struct PriorityItem<R, T> { item: R, priority: T }` -/
structure PriorityItem (R T : Type) where
  item : R
  priority : T

/-- `enum PriorityMode { MinimizeHead, MaximizeHead }` -/
inductive PriorityMode where
  | MinimizeHead
  | MaximizeHead

/-- `struct PriorityQueue<R, T> { data: Vec<PriorityItem<R, T>>, mode: PriorityMode }` -/
structure PriorityQueue (R T : Type) where
  data : List (PriorityItem R T)
  mode : PriorityMode

variable {R T : Type} [LinearOrder T]

/-- `Vec::swap(i, j)`: exchange the entries at `i` and `j`.  Rust panics
when an index is out of bounds; the unchecked model leaves the list
unchanged in that case (`listSwapChecked` models the panic). -/
def listSwap (l : List α) (i j : Nat) : List α :=
  match l[i]?, l[j]? with
  | some a, some b => (l.set i b).set j a
  | _, _ => l

/-- Checked twin of `listSwap`: an out-of-bounds index is a panic,
modelled as `none`. -/
def listSwapChecked (l : List α) (i j : Nat) : Option (List α) :=
  match l[i]?, l[j]? with
  | some a, some b => some ((l.set i b).set j a)
  | _, _ => none

/-- `fn new(size_hint: usize, mode: PriorityMode) -> Self`.
`Vec::with_capacity(size_hint)` only preallocates; the capacity hint has
no observable effect on the sequence of entries, so the model starts
from the empty list. -/
def PriorityQueue.new (size_hint : Nat) (mode : PriorityMode) : PriorityQueue R T :=
  { data := [], mode := mode }

/-- `fn parent(idx) = (idx - 1) / 2`.  In Rust `idx - 1` underflows for
`idx = 0` (the function is only ever called with `idx != 0`); `Nat`
subtraction truncates instead, and `parentChecked` models the underflow
as a failure. -/
def parent (idx : Nat) : Nat :=
  (idx - 1) / 2

/-- Checked twin of `parent`: `idx = 0` would underflow the `usize`
subtraction, modelled as `none`. -/
def parentChecked (idx : Nat) : Option Nat :=
  if idx = 0 then none else some ((idx - 1) / 2)

/-- `fn children(idx) = ((idx * 2) + 1, (idx * 2) + 2)` -/
def children (idx : Nat) : Nat × Nat :=
  (idx * 2 + 1, idx * 2 + 2)

/-- `fn violates_heap_property(parent, child)`: compares
`data[parent].priority` with `data[child].priority` under the mode.
Rust panics when an index is out of bounds; this model returns `false`
there (`violatesHeapPropertyChecked` models the panic). -/
def violatesHeapProperty (mode : PriorityMode) (data : List (PriorityItem R T))
    (parentIdx childIdx : Nat) : Bool :=
  match data[parentIdx]?, data[childIdx]? with
  | some p, some c =>
    match mode with
    | .MinimizeHead => decide (c.priority < p.priority)
    | .MaximizeHead => decide (p.priority < c.priority)
  | _, _ => false

/-- Checked twin of `violatesHeapProperty`: an out-of-bounds index is a
panic, modelled as `none`. -/
def violatesHeapPropertyChecked (mode : PriorityMode) (data : List (PriorityItem R T))
    (parentIdx childIdx : Nat) : Option Bool :=
  match data[parentIdx]?, data[childIdx]? with
  | some p, some c =>
    some (match mode with
          | .MinimizeHead => decide (c.priority < p.priority)
          | .MaximizeHead => decide (p.priority < c.priority))
  | _, _ => none

/-- `fn best_child(idx) -> Option<usize>`: the candidate child to swap
with during sift-down.  The existence checks compare against the length
of the *current* `data` (the live, post-pop length in `take`). -/
def bestChild (mode : PriorityMode) (data : List (PriorityItem R T)) (idx : Nat) :
    Option Nat :=
  let (child1, child2) := children idx
  let len := data.length
  if len ≤ child1 then
    none
  else if len ≤ child2 then
    some child1
  else
    if violatesHeapProperty mode data child1 child2 then
      some child2
    else
      some child1

/-- Checked twin of `bestChild`: the comparison of the two children is
performed with the checked comparator (it is in bounds by the guards,
which the equivalence theorem makes explicit). -/
def bestChildChecked (mode : PriorityMode) (data : List (PriorityItem R T)) (idx : Nat) :
    Option (Option Nat) :=
  let (child1, child2) := children idx
  let len := data.length
  if len ≤ child1 then
    some none
  else if len ≤ child2 then
    some (some child1)
  else
    match violatesHeapPropertyChecked mode data child1 child2 with
    | some true => some (some child2)
    | some false => some (some child1)
    | none => none

/-- The sift-up loop of `insert`:
`while idx != 0 { let parent = self.parent(idx); if violates(parent, idx) { swap; idx = parent } else { break } }`,
as a fuel-indexed recursion (fuel `idx` suffices, proved below). -/
def siftUpLoop (mode : PriorityMode) :
    Nat → List (PriorityItem R T) → Nat → List (PriorityItem R T)
  | 0, data, _ => data
  | fuel + 1, data, idx =>
    if idx ≠ 0 then
      let p := parent idx
      if violatesHeapProperty mode data p idx then
        siftUpLoop mode fuel (listSwap data p idx) p
      else
        data
    else
      data

/-- Checked twin of the sift-up loop: the `parent` call is the checked
one, so a call with `idx = 0` (the `usize` underflow) would surface as
`none`. -/
def siftUpLoopChecked (mode : PriorityMode) :
    Nat → List (PriorityItem R T) → Nat → Option (List (PriorityItem R T))
  | 0, data, _ => some data
  | fuel + 1, data, idx =>
    if idx ≠ 0 then
      match parentChecked idx with
      | none => none
      | some p =>
        if violatesHeapProperty mode data p idx then
          siftUpLoopChecked mode fuel (listSwap data p idx) p
        else
          some data
    else
      some data

/-- `fn insert(&mut self, item, priority)`: push at the end, then sift
up from the new last index `self.data.len() - 1`. -/
def insert (q : PriorityQueue R T) (item : R) (priority : T) : PriorityQueue R T :=
  let data := q.data ++ [{ item := item, priority := priority }]
  let idx := data.length - 1
  { data := siftUpLoop q.mode idx data idx, mode := q.mode }

/-- `insert` with the checked sift-up loop. -/
def insertChecked (q : PriorityQueue R T) (item : R) (priority : T) :
    Option (PriorityQueue R T) :=
  let data := q.data ++ [{ item := item, priority := priority }]
  let idx := data.length - 1
  (siftUpLoopChecked q.mode idx data idx).map
    (fun d => { data := d, mode := q.mode })

/-- The sift-down loop of `take`:
`while idx < heap_len { if let Some(child) = best_child(idx) { if violates(idx, child) { swap; idx = child } else { break } } else { break } }`.
`bound` is the captured pre-pop `heap_len`; `data` is the live, post-pop
sequence.  Fuel-indexed (fuel `bound - idx` suffices, proved below). -/
def siftDownLoop (mode : PriorityMode) :
    Nat → Nat → List (PriorityItem R T) → Nat → List (PriorityItem R T)
  | 0, _, data, _ => data
  | fuel + 1, bound, data, idx =>
    if idx < bound then
      match bestChild mode data idx with
      | some child =>
        if violatesHeapProperty mode data idx child then
          siftDownLoop mode fuel bound (listSwap data idx child) child
        else
          data
      | none => data
    else
      data

/-- Checked twin of the sift-down loop: every existence check, element
comparison and swap is the checked one, so any out-of-bounds access
(in particular a read of the slot vacated by the pop) would surface as
`none`. -/
def siftDownLoopChecked (mode : PriorityMode) :
    Nat → Nat → List (PriorityItem R T) → Nat → Option (List (PriorityItem R T))
  | 0, _, data, _ => some data
  | fuel + 1, bound, data, idx =>
    if idx < bound then
      match bestChildChecked mode data idx with
      | none => none
      | some none => some data
      | some (some child) =>
        match violatesHeapPropertyChecked mode data idx child with
        | none => none
        | some true =>
          match listSwapChecked data idx child with
          | none => none
          | some d => siftDownLoopChecked mode fuel bound d child
        | some false => some data
    else
      some data

/-- `fn take(&mut self) -> Option<R>`, kept at the level of the stored
pair: capture `heap_len`, return `none` on empty, swap root with last,
pop (capture the original root), sift down from index 0 with the loop
bound `heap_len`, and return the captured pair with the new state. -/
def takeItem (q : PriorityQueue R T) :
    Option (PriorityItem R T) × PriorityQueue R T :=
  let heap_len := q.data.length
  if heap_len = 0 then
    (none, q)
  else
    let d1 := listSwap q.data 0 (heap_len - 1)
    let result_value := d1.getLast?
    let d2 := d1.dropLast
    let d3 := siftDownLoop q.mode heap_len heap_len d2 0
    (result_value, { data := d3, mode := q.mode })

/-- `take` as in the source: `result_value.map(|x| x.item)`. -/
def take (q : PriorityQueue R T) : Option R × PriorityQueue R T :=
  let r := takeItem q
  (r.1.map (fun x => x.item), r.2)

/-- `take` with the checked swap and the checked sift-down loop. -/
def takeChecked (q : PriorityQueue R T) :
    Option (Option R × PriorityQueue R T) :=
  let heap_len := q.data.length
  if heap_len = 0 then
    some (none, q)
  else
    match listSwapChecked q.data 0 (heap_len - 1) with
    | none => none
    | some d1 =>
      let result_value := d1.getLast?
      let d2 := d1.dropLast
      match siftDownLoopChecked q.mode heap_len heap_len d2 0 with
      | none => none
      | some d3 => some (result_value.map (fun x => x.item), { data := d3, mode := q.mode })

/-- The ordering "parent does not lose to child" selected by the mode:
`a ≤ b` for `MinimizeHead`, `b ≤ a` for `MaximizeHead`. -/
def modeLe (mode : PriorityMode) (a b : T) : Prop :=
  match mode with
  | .MinimizeHead => a ≤ b
  | .MaximizeHead => b ≤ a

instance (mode : PriorityMode) (a b : T) : Decidable (modeLe mode a b) :=
  match mode with
  | .MinimizeHead => inferInstanceAs (Decidable (a ≤ b))
  | .MaximizeHead => inferInstanceAs (Decidable (b ≤ a))

/-- The heap invariant: for every non-root index `i` in the live
sequence, the entry at `(i-1)/2` does not lose to the entry at `i`
under the mode (spec section 3, "Heap invariant"). -/
def heapInv (mode : PriorityMode) (data : List (PriorityItem R T)) : Prop :=
  ∀ i : Nat, 0 < i →
    ∀ x ∈ data[(i - 1) / 2]?, ∀ y ∈ data[i]?, modeLe mode x.priority y.priority

/-- Executable check of `heapInv`, for concrete instances. -/
def heapInvB (mode : PriorityMode) (data : List (PriorityItem R T)) : Bool :=
  (List.range data.length).all fun i =>
    if i = 0 then true
    else
      match data[(i - 1) / 2]?, data[i]? with
      | some x, some y => decide (modeLe mode x.priority y.priority)
      | _, _ => true

/-- A single public operation on the queue. -/
inductive QueueOp (R T : Type) where
  | ins (item : R) (priority : T)
  | tk

/-- Run a sequence of operations, discarding the outputs of `take`. -/
def runOps : List (QueueOp R T) → PriorityQueue R T → PriorityQueue R T
  | [], q => q
  | .ins r t :: rest, q => runOps rest (insert q r t)
  | .tk :: rest, q => runOps rest (take q).2

/-- Number of `insert` operations in a sequence. -/
def numInserts : List (QueueOp R T) → Nat
  | [] => 0
  | .ins _ _ :: rest => numInserts rest + 1
  | .tk :: rest => numInserts rest

/-- Number of `take` operations in a run that returned an item. -/
def takeSuccesses : List (QueueOp R T) → PriorityQueue R T → Nat
  | [], _ => 0
  | .ins r t :: rest, q => takeSuccesses rest (insert q r t)
  | .tk :: rest, q =>
    (if (take q).1.isSome then 1 else 0) + takeSuccesses rest (take q).2

/-- Insert a list of (item, priority) pairs in order. -/
def insertAll (q : PriorityQueue R T) : List (R × T) → PriorityQueue R T
  | [] => q
  | (r, t) :: rest => insertAll (insert q r t) rest

/-- Drain up to `n` entries, recording the priority stored with each
taken pair, stopping early if the queue reports empty. -/
def drainPriorities : Nat → PriorityQueue R T → List T
  | 0, _ => []
  | n + 1, q =>
    match takeItem q with
    | (some x, q') => x.priority :: drainPriorities n q'
    | (none, _) => []

/-! ### Basic facts about the ordering, swapping and the helpers -/

theorem lt_length_of_getElem {l : List α} {i : Nat} {a : α} (h : l[i]? = some a) :
    i < l.length :=
  (List.getElem?_eq_some.mp h).1

theorem modeLe_refl (mode : PriorityMode) (a : T) : modeLe mode a a := by
  cases mode <;> simp [modeLe]

theorem modeLe_trans {mode : PriorityMode} {a b c : T}
    (h1 : modeLe mode a b) (h2 : modeLe mode b c) : modeLe mode a c := by
  cases mode <;> simp only [modeLe] at * <;> exact le_trans (by assumption) (by assumption)

theorem modeLe_total (mode : PriorityMode) (a b : T) :
    modeLe mode a b ∨ modeLe mode b a := by
  cases mode
  · exact le_total a b
  · exact le_total b a

theorem length_listSwap (l : List α) (i j : Nat) :
    (listSwap l i j).length = l.length := by
  unfold listSwap
  cases h1 : l[i]? <;> cases h2 : l[j]? <;> simp

theorem mem_listSwap {l : List α} {i j : Nat} {a : α} (h : a ∈ listSwap l i j) :
    a ∈ l := by
  unfold listSwap at h
  cases h1 : l[i]? with
  | none => rw [h1] at h; exact h
  | some x =>
    cases h2 : l[j]? with
    | none => rw [h1, h2] at h; exact h
    | some y =>
      rw [h1, h2] at h
      rcases List.mem_or_eq_of_mem_set h with h' | h'
      · rcases List.mem_or_eq_of_mem_set h' with h'' | h''
        · exact h''
        · subst h''; exact (List.getElem?_eq_some.mp h2).2 ▸ List.getElem_mem _
      · subst h'; exact (List.getElem?_eq_some.mp h1).2 ▸ List.getElem_mem _

theorem listSwap_getElem (l : List α) (i j k : Nat)
    (hi : i < l.length) (hj : j < l.length) :
    (listSwap l i j)[k]? =
      if k = j then l[i]? else if k = i then l[j]? else l[k]? := by
  unfold listSwap
  rw [List.getElem?_eq_getElem hi, List.getElem?_eq_getElem hj]
  by_cases hkj : k = j
  · subst hkj
    rw [List.getElem?_set_eq (by simp [hj]), if_pos rfl]
  · rw [List.getElem?_set_ne (Ne.symm hkj), if_neg hkj]
    by_cases hki : k = i
    · subst hki
      rw [List.getElem?_set_eq hi, if_pos rfl]
    · rw [List.getElem?_set_ne (Ne.symm hki), if_neg hki]

theorem violates_true_iff {mode : PriorityMode} {data : List (PriorityItem R T)}
    {p c : Nat} {x y : PriorityItem R T}
    (hx : data[p]? = some x) (hy : data[c]? = some y) :
    violatesHeapProperty mode data p c = true ↔ ¬ modeLe mode x.priority y.priority := by
  unfold violatesHeapProperty
  rw [hx, hy]
  cases mode <;> simp [modeLe, not_le]

theorem le_of_violates_false {mode : PriorityMode} {data : List (PriorityItem R T)}
    {p c : Nat} (h : violatesHeapProperty mode data p c = false) :
    ∀ x ∈ data[p]?, ∀ y ∈ data[c]?, modeLe mode x.priority y.priority := by
  intro x hx y hy
  simp only [Option.mem_def] at hx hy
  by_contra hcon
  rw [(violates_true_iff hx hy).mpr hcon] at h
  exact Bool.noConfusion h

theorem le_of_violates_true {mode : PriorityMode} {data : List (PriorityItem R T)}
    {p c : Nat} {x y : PriorityItem R T}
    (hx : data[p]? = some x) (hy : data[c]? = some y)
    (h : violatesHeapProperty mode data p c = true) :
    modeLe mode y.priority x.priority := by
  have hv := (violates_true_iff hx hy).mp h
  rcases modeLe_total mode x.priority y.priority with h' | h'
  · exact absurd h' hv
  · exact h'

theorem violates_inbounds {mode : PriorityMode} {data : List (PriorityItem R T)}
    {p c : Nat} (h : violatesHeapProperty mode data p c = true) :
    ∃ x y, data[p]? = some x ∧ data[c]? = some y := by
  unfold violatesHeapProperty at h
  cases hx : data[p]? with
  | none => rw [hx] at h; exact absurd h (by simp)
  | some x =>
    cases hy : data[c]? with
    | none => rw [hx, hy] at h; exact absurd h (by simp)
    | some y => exact ⟨x, y, rfl, rfl⟩

theorem bestChild_eq_none {mode : PriorityMode} {data : List (PriorityItem R T)}
    {idx : Nat} (h : bestChild mode data idx = none) :
    data.length ≤ idx * 2 + 1 := by
  unfold bestChild children at h
  by_cases h1 : data.length ≤ idx * 2 + 1
  · exact h1
  · simp only [h1, if_false] at h
    by_cases h2 : data.length ≤ idx * 2 + 2 <;> simp [h2] at h
    split at h <;> simp at h

theorem bestChild_eq_some {mode : PriorityMode} {data : List (PriorityItem R T)}
    {idx c : Nat} (h : bestChild mode data idx = some c) :
    c < data.length ∧ (c = idx * 2 + 1 ∨ c = idx * 2 + 2) ∧ idx < c := by
  unfold bestChild children at h
  by_cases h1 : data.length ≤ idx * 2 + 1
  · simp [h1] at h
  · simp only [h1, if_false] at h
    by_cases h2 : data.length ≤ idx * 2 + 2
    · simp only [h2, if_true] at h
      cases h
      exact ⟨by omega, Or.inl rfl, by omega⟩
    · simp only [h2, if_false] at h
      split at h <;> cases h
      · exact ⟨by omega, Or.inr rfl, by omega⟩
      · exact ⟨by omega, Or.inl rfl, by omega⟩

theorem bestChild_best {mode : PriorityMode} {data : List (PriorityItem R T)}
    {idx c : Nat} (h : bestChild mode data idx = some c) :
    ∀ j, (j = idx * 2 + 1 ∨ j = idx * 2 + 2) →
      ∀ x ∈ data[c]?, ∀ y ∈ data[j]?, modeLe mode x.priority y.priority := by
  intro j hj x hx y hy
  simp only [Option.mem_def] at hx hy
  unfold bestChild children at h
  by_cases h1 : data.length ≤ idx * 2 + 1
  · simp [h1] at h
  · simp only [h1, if_false] at h
    by_cases h2 : data.length ≤ idx * 2 + 2
    · simp only [h2, if_true] at h
      cases h
      rcases hj with hj | hj
      · subst hj; rw [hx] at hy; cases hy; exact modeLe_refl _ _
      · subst hj
        rw [List.getElem?_eq_none_iff.mpr h2] at hy
        cases hy
    · simp only [h2, if_false] at h
      cases hv : violatesHeapProperty mode data (idx * 2 + 1) (idx * 2 + 2)
      · -- no violation between the children: child1 chosen
        rw [hv] at h
        simp at h
        subst h
        rcases hj with hj | hj
        · subst hj; rw [hx] at hy; cases hy; exact modeLe_refl _ _
        · subst hj
          exact le_of_violates_false hv x (by simp [hx]) y (by simp [hy])
      · -- child1 would violate as parent of child2: child2 chosen
        rw [hv] at h
        simp at h
        subst h
        rcases hj with hj | hj
        · subst hj
          exact le_of_violates_true hy hx hv
        · subst hj; rw [hx] at hy; cases hy; exact modeLe_refl _ _

/-! ### Invariants for the two fix-up walks -/

theorem getElem_of_lt {l : List α} {i : Nat} (h : i < l.length) : l[i]? = some l[i] :=
  (List.getElem?_eq_some_getElem_iff l i h).mpr trivial

/-- The heap property holds at every parent-child pair whose parent is
not `idx` (the sift-down loop invariant, part 1). -/
def heapExcept (mode : PriorityMode) (data : List (PriorityItem R T)) (idx : Nat) : Prop :=
  ∀ i : Nat, 0 < i → (i - 1) / 2 ≠ idx →
    ∀ x ∈ data[(i - 1) / 2]?, ∀ y ∈ data[i]?, modeLe mode x.priority y.priority

/-- If `idx` has a parent, that parent's entry does not lose to the
entries at `idx`'s children (the sift-down loop invariant, part 2). -/
def holeDominated (mode : PriorityMode) (data : List (PriorityItem R T)) (idx : Nat) : Prop :=
  ∀ i : Nat, 0 < idx → (i - 1) / 2 = idx →
    ∀ x ∈ data[(idx - 1) / 2]?, ∀ y ∈ data[i]?, modeLe mode x.priority y.priority

/-- The heap property holds at every parent-child pair whose child is
not `idx` (the sift-up loop invariant, part 1; part 2 is
`holeDominated` again). -/
def heapExceptUp (mode : PriorityMode) (data : List (PriorityItem R T)) (idx : Nat) : Prop :=
  ∀ i : Nat, 0 < i → i ≠ idx →
    ∀ x ∈ data[(i - 1) / 2]?, ∀ y ∈ data[i]?, modeLe mode x.priority y.priority

theorem heapInv_of_except {mode : PriorityMode} {data : List (PriorityItem R T)} {idx : Nat}
    (hex : heapExcept mode data idx)
    (hat : ∀ i, 0 < i → (i - 1) / 2 = idx →
      ∀ x ∈ data[idx]?, ∀ y ∈ data[i]?, modeLe mode x.priority y.priority) :
    heapInv mode data := by
  intro i hi x hx y hy
  by_cases hpi : (i - 1) / 2 = idx
  · exact hat i hi hpi x (hpi ▸ hx) y hy
  · exact hex i hi hpi x hx y hy

theorem heapInv_of_except_oob {mode : PriorityMode} {data : List (PriorityItem R T)}
    {idx : Nat} (hex : heapExcept mode data idx)
    (hlen : data.length ≤ idx * 2 + 1) : heapInv mode data := by
  apply heapInv_of_except hex
  intro i hi hpi x hx y hy
  exfalso
  have := lt_length_of_getElem (Option.mem_def.mp hy)
  omega

/-- Swapping the hole `idx` with the chosen best child re-establishes
the sift-down loop invariant one level down. -/
theorem siftDown_swap_invariants {mode : PriorityMode} {data : List (PriorityItem R T)}
    {idx c : Nat} {xi xc : PriorityItem R T}
    (hc12 : c = idx * 2 + 1 ∨ c = idx * 2 + 2)
    (hxi : data[idx]? = some xi) (hxc : data[c]? = some xc)
    (hex : heapExcept mode data idx) (hdom : holeDominated mode data idx)
    (hbest : ∀ j, (j = idx * 2 + 1 ∨ j = idx * 2 + 2) →
      ∀ y ∈ data[j]?, modeLe mode xc.priority y.priority)
    (hviol : modeLe mode xc.priority xi.priority) :
    heapExcept mode (listSwap data idx c) c ∧ holeDominated mode (listSwap data idx c) c := by
  have hidx : idx < data.length := lt_length_of_getElem hxi
  have hcl : c < data.length := lt_length_of_getElem hxc
  have hic : idx < c := by omega
  constructor
  · intro i hi hne x hx y hy
    rw [Option.mem_def, listSwap_getElem data idx c ((i - 1) / 2) hidx hcl] at hx
    rw [Option.mem_def, listSwap_getElem data idx c i hidx hcl] at hy
    rw [if_neg hne] at hx
    by_cases hpi : (i - 1) / 2 = idx
    · rw [if_pos hpi, hxc] at hx
      cases hx
      by_cases hico : i = c
      · rw [if_pos hico, hxi] at hy
        cases hy
        exact hviol
      · have hii : i ≠ idx := by omega
        rw [if_neg hico, if_neg hii] at hy
        have hi12 : i = idx * 2 + 1 ∨ i = idx * 2 + 2 := by omega
        exact hbest i hi12 y (Option.mem_def.mpr hy)
    · rw [if_neg hpi] at hx
      by_cases hico : i = c
      · exfalso; omega
      · rw [if_neg hico] at hy
        by_cases hii : i = idx
        · rw [if_pos hii, hxc] at hy
          cases hy
          rw [hii] at hx hi
          exact hdom c hi (by omega) x (Option.mem_def.mpr hx) xc
            (Option.mem_def.mpr hxc)
        · rw [if_neg hii] at hy
          exact hex i hi hpi x (Option.mem_def.mpr hx) y (Option.mem_def.mpr hy)
  · intro i hc0 hpari x hx y hy
    rw [Option.mem_def, listSwap_getElem data idx c ((c - 1) / 2) hidx hcl] at hx
    rw [Option.mem_def, listSwap_getElem data idx c i hidx hcl] at hy
    have hpc : (c - 1) / 2 = idx := by omega
    rw [if_neg (by omega : (c - 1) / 2 ≠ c), if_pos hpc, hxc] at hx
    cases hx
    have hine : i ≠ c := by omega
    have hini : i ≠ idx := by omega
    rw [if_neg hine, if_neg hini] at hy
    exact hex i (by omega) (by omega) xc
      (by rw [Option.mem_def, hpari]; exact hxc) y (Option.mem_def.mpr hy)

theorem siftDownLoop_zero {mode : PriorityMode} {bound : Nat}
    {data : List (PriorityItem R T)} {idx : Nat} :
    siftDownLoop mode 0 bound data idx = data := rfl

theorem siftDownLoop_stop {mode : PriorityMode} {fuel bound : Nat}
    {data : List (PriorityItem R T)} {idx : Nat} (hb : ¬ idx < bound) :
    siftDownLoop mode (fuel + 1) bound data idx = data := by
  rw [siftDownLoop, if_neg hb]

theorem siftDownLoop_succ_none {mode : PriorityMode} {fuel bound : Nat}
    {data : List (PriorityItem R T)} {idx : Nat} (hb : idx < bound)
    (hbc : bestChild mode data idx = none) :
    siftDownLoop mode (fuel + 1) bound data idx = data := by
  rw [siftDownLoop, if_pos hb, hbc]

theorem siftDownLoop_succ_some {mode : PriorityMode} {fuel bound : Nat}
    {data : List (PriorityItem R T)} {idx child : Nat} (hb : idx < bound)
    (hbc : bestChild mode data idx = some child) :
    siftDownLoop mode (fuel + 1) bound data idx =
      if violatesHeapProperty mode data idx child = true then
        siftDownLoop mode fuel bound (listSwap data idx child) child
      else data := by
  rw [siftDownLoop, if_pos hb, hbc]

/-- Main sift-down lemma: from the loop invariant, the loop restores
the full heap invariant (for any loop bound at least the live length,
in particular the pre-pop `heap_len`, and any sufficient fuel). -/
theorem siftDownLoop_heapInv {mode : PriorityMode} :
    ∀ (fuel bound : Nat) (data : List (PriorityItem R T)) (idx : Nat),
    data.length ≤ bound → bound - idx ≤ fuel →
    heapExcept mode data idx → holeDominated mode data idx →
    heapInv mode (siftDownLoop mode fuel bound data idx) := by
  intro fuel
  induction fuel with
  | zero =>
    intro bound data idx hlen hfuel hex _
    rw [siftDownLoop_zero]
    exact heapInv_of_except_oob hex (by omega)
  | succ fuel ih =>
    intro bound data idx hlen hfuel hex hdom
    by_cases hb : idx < bound
    · cases hbc : bestChild mode data idx with
      | none =>
        rw [siftDownLoop_succ_none hb hbc]
        exact heapInv_of_except_oob hex (bestChild_eq_none hbc)
      | some child =>
        obtain ⟨hcl, hc12, hic⟩ := bestChild_eq_some hbc
        rw [siftDownLoop_succ_some hb hbc]
        cases hv : violatesHeapProperty mode data idx child with
        | false =>
          rw [if_neg (by simp)]
          obtain ⟨xc, hxc⟩ : ∃ z, data[child]? = some z := ⟨_, getElem_of_lt hcl⟩
          apply heapInv_of_except hex
          intro i hi hpi x hx y hy
          have hi12 : i = idx * 2 + 1 ∨ i = idx * 2 + 2 := by omega
          have h1 : modeLe mode x.priority xc.priority :=
            le_of_violates_false hv x hx xc (Option.mem_def.mpr hxc)
          have h2 : modeLe mode xc.priority y.priority :=
            bestChild_best hbc i hi12 xc (Option.mem_def.mpr hxc) y hy
          exact modeLe_trans h1 h2
        | true =>
          rw [if_pos rfl]
          obtain ⟨xi, xc, hxi, hxc⟩ := violates_inbounds hv
          obtain ⟨hex', hdom'⟩ := siftDown_swap_invariants hc12 hxi hxc hex hdom
            (fun j hj y hy => bestChild_best hbc j hj xc (Option.mem_def.mpr hxc) y hy)
            (le_of_violates_true hxi hxc hv)
          exact ih bound (listSwap data idx child) child
            (by rw [length_listSwap]; exact hlen) (by omega) hex' hdom'
    · rw [siftDownLoop_stop hb]
      exact heapInv_of_except_oob hex (by omega)

theorem parent_def (idx : Nat) : parent idx = (idx - 1) / 2 := rfl

theorem siftUpLoop_zero {mode : PriorityMode} {data : List (PriorityItem R T)} {idx : Nat} :
    siftUpLoop mode 0 data idx = data := rfl

theorem siftUpLoop_stop0 {mode : PriorityMode} {fuel : Nat} {data : List (PriorityItem R T)} :
    siftUpLoop mode (fuel + 1) data 0 = data := by
  rw [siftUpLoop]
  simp

theorem siftUpLoop_succ {mode : PriorityMode} {fuel : Nat} {data : List (PriorityItem R T)}
    {idx : Nat} (h : idx ≠ 0) :
    siftUpLoop mode (fuel + 1) data idx =
      if violatesHeapProperty mode data ((idx - 1) / 2) idx = true then
        siftUpLoop mode fuel (listSwap data ((idx - 1) / 2) idx) ((idx - 1) / 2)
      else data := by
  rw [siftUpLoop, if_pos h]
  rfl

theorem heapInv_of_exceptUp {mode : PriorityMode} {data : List (PriorityItem R T)} {idx : Nat}
    (hex : heapExceptUp mode data idx)
    (hat : ∀ x ∈ data[(idx - 1) / 2]?, ∀ y ∈ data[idx]?, modeLe mode x.priority y.priority) :
    heapInv mode data := by
  intro i hi x hx y hy
  by_cases hii : i = idx
  · subst hii; exact hat x hx y hy
  · exact hex i hi hii x hx y hy

/-- Swapping `idx` with its parent re-establishes the sift-up loop
invariant one level up. -/
theorem siftUp_swap_invariants {mode : PriorityMode} {data : List (PriorityItem R T)}
    {idx : Nat} {xq xi : PriorityItem R T}
    (hidx0 : idx ≠ 0)
    (hxq : data[(idx - 1) / 2]? = some xq) (hxi : data[idx]? = some xi)
    (hex : heapExceptUp mode data idx) (hdom : holeDominated mode data idx)
    (hviol : modeLe mode xi.priority xq.priority) :
    heapExceptUp mode (listSwap data ((idx - 1) / 2) idx) ((idx - 1) / 2) ∧
      holeDominated mode (listSwap data ((idx - 1) / 2) idx) ((idx - 1) / 2) := by
  have hqlen : (idx - 1) / 2 < data.length := lt_length_of_getElem hxq
  have hilen : idx < data.length := lt_length_of_getElem hxi
  have hqi : (idx - 1) / 2 < idx := by omega
  constructor
  · intro i hi hne x hx y hy
    rw [Option.mem_def,
      listSwap_getElem data ((idx - 1) / 2) idx ((i - 1) / 2) hqlen hilen] at hx
    rw [Option.mem_def, listSwap_getElem data ((idx - 1) / 2) idx i hqlen hilen] at hy
    by_cases hii : i = idx
    · rw [if_pos hii, hxq] at hy
      cases hy
      rw [if_neg (by omega), if_pos (by omega), hxi] at hx
      cases hx
      exact hviol
    · rw [if_neg hii, if_neg hne] at hy
      by_cases hpi : (i - 1) / 2 = idx
      · rw [if_pos hpi, hxq] at hx
        cases hx
        exact hdom i (by omega) hpi xq (Option.mem_def.mpr hxq) y
          (Option.mem_def.mpr hy)
      · rw [if_neg hpi] at hx
        by_cases hpq : (i - 1) / 2 = (idx - 1) / 2
        · rw [if_pos hpq, hxi] at hx
          cases hx
          have h1 : modeLe mode xq.priority y.priority := by
            have := hex i hi hii xq (by rw [Option.mem_def, hpq]; exact hxq) y
              (Option.mem_def.mpr hy)
            exact this
          exact modeLe_trans hviol h1
        · rw [if_neg hpq] at hx
          exact hex i hi hii x (Option.mem_def.mpr hx) y (Option.mem_def.mpr hy)
  · intro i h0q hpari x hx y hy
    rw [Option.mem_def,
      listSwap_getElem data ((idx - 1) / 2) idx (((idx - 1) / 2 - 1) / 2) hqlen hilen] at hx
    rw [Option.mem_def, listSwap_getElem data ((idx - 1) / 2) idx i hqlen hilen] at hy
    rw [if_neg (by omega), if_neg (by omega)] at hx
    have hxq2 : modeLe mode x.priority xq.priority :=
      hex ((idx - 1) / 2) h0q (by omega) x (Option.mem_def.mpr hx) xq
        (Option.mem_def.mpr hxq)
    by_cases hii : i = idx
    · rw [if_pos hii, hxq] at hy
      cases hy
      exact hxq2
    · rw [if_neg hii, if_neg (by omega)] at hy
      have h1 : modeLe mode xq.priority y.priority :=
        hex i (by omega) hii xq (by rw [Option.mem_def, hpari]; exact hxq) y
          (Option.mem_def.mpr hy)
      exact modeLe_trans hxq2 h1

/-- Main sift-up lemma: from the loop invariant, the loop restores the
full heap invariant (for any sufficient fuel). -/
theorem siftUpLoop_heapInv {mode : PriorityMode} :
    ∀ (fuel : Nat) (data : List (PriorityItem R T)) (idx : Nat),
    idx ≤ fuel →
    heapExceptUp mode data idx → holeDominated mode data idx →
    heapInv mode (siftUpLoop mode fuel data idx) := by
  have root_hat : ∀ (data : List (PriorityItem R T)),
      ∀ x ∈ data[(0 - 1) / 2]?, ∀ y ∈ data[(0 : Nat)]?, modeLe mode x.priority y.priority := by
    intro data x hx y hy
    rw [Option.mem_def] at hx hy
    have h00 : ((0 : Nat) - 1) / 2 = 0 := rfl
    rw [h00, hy] at hx
    cases hx
    exact modeLe_refl _ _
  intro fuel
  induction fuel with
  | zero =>
    intro data idx hfuel hex _
    have h0 : idx = 0 := by omega
    subst h0
    rw [siftUpLoop_zero]
    exact heapInv_of_exceptUp hex (root_hat data)
  | succ fuel ih =>
    intro data idx hfuel hex hdom
    by_cases h0 : idx = 0
    · subst h0
      rw [siftUpLoop_stop0]
      exact heapInv_of_exceptUp hex (root_hat data)
    · rw [siftUpLoop_succ h0]
      cases hv : violatesHeapProperty mode data ((idx - 1) / 2) idx with
      | false =>
        rw [if_neg (by simp)]
        exact heapInv_of_exceptUp hex (le_of_violates_false hv)
      | true =>
        rw [if_pos rfl]
        obtain ⟨xq, xi, hxq, hxi⟩ := violates_inbounds hv
        obtain ⟨hex', hdom'⟩ := siftUp_swap_invariants h0 hxq hxi hex hdom
          (le_of_violates_true hxq hxi hv)
        exact ih (listSwap data ((idx - 1) / 2) idx) ((idx - 1) / 2) (by omega) hex' hdom'

/-! ### The public operations preserve the heap invariant -/

theorem insert_entry_invariants {mode : PriorityMode} {data : List (PriorityItem R T)}
    {e : PriorityItem R T} (hinv : heapInv mode data) :
    heapExceptUp mode (data ++ [e]) data.length ∧
      holeDominated mode (data ++ [e]) data.length := by
  constructor
  · intro i hi hne x hx y hy
    rw [Option.mem_def] at hx hy
    have hilen : i < (data ++ [e]).length := lt_length_of_getElem hy
    rw [List.length_append, List.length_singleton] at hilen
    have hilt : i < data.length := by omega
    rw [List.getElem?_append_left hilt] at hy
    rw [List.getElem?_append_left (by omega : (i - 1) / 2 < data.length)] at hx
    exact hinv i hi x (Option.mem_def.mpr hx) y (Option.mem_def.mpr hy)
  · intro i h0 hpari x hx y hy
    exfalso
    rw [Option.mem_def] at hy
    have hilen : i < (data ++ [e]).length := lt_length_of_getElem hy
    rw [List.length_append, List.length_singleton] at hilen
    omega

theorem insert_data (q : PriorityQueue R T) (r : R) (t : T) :
    (insert q r t).data =
      siftUpLoop q.mode q.data.length (q.data ++ [PriorityItem.mk r t]) q.data.length := by
  simp [insert]

theorem insert_mode (q : PriorityQueue R T) (r : R) (t : T) :
    (insert q r t).mode = q.mode := rfl

theorem insert_heapInv {q : PriorityQueue R T} {r : R} {t : T}
    (hinv : heapInv q.mode q.data) : heapInv q.mode (insert q r t).data := by
  obtain ⟨hex, hdom⟩ :=
    insert_entry_invariants (e := PriorityItem.mk r t) hinv
  rw [insert_data]
  exact siftUpLoop_heapInv q.data.length _ q.data.length le_rfl hex hdom

theorem take_entry_invariants {mode : PriorityMode} {data : List (PriorityItem R T)}
    (hinv : heapInv mode data) :
    heapExcept mode ((listSwap data 0 (data.length - 1)).dropLast) 0 ∧
      holeDominated mode ((listSwap data 0 (data.length - 1)).dropLast) 0 := by
  constructor
  · intro i hi hne x hx y hy
    rw [Option.mem_def, List.getElem?_dropLast] at hx hy
    by_cases hyin : i < (listSwap data 0 (data.length - 1)).length - 1
    · rw [if_pos hyin] at hy
      rw [length_listSwap] at hyin
      have h0 : 0 < data.length := by omega
      rw [if_pos (by rw [length_listSwap]; omega)] at hx
      rw [listSwap_getElem data 0 (data.length - 1) i h0 (by omega)] at hy
      rw [listSwap_getElem data 0 (data.length - 1) ((i - 1) / 2) h0 (by omega)] at hx
      rw [if_neg (by omega), if_neg (by omega)] at hy
      rw [if_neg (by omega), if_neg (by omega)] at hx
      exact hinv i hi x (Option.mem_def.mpr hx) y (Option.mem_def.mpr hy)
    · rw [if_neg hyin] at hy
      cases hy
  · intro i h0 _ _ _ _ _
    exact absurd h0 (lt_irrefl 0)

theorem takeItem_empty (q : PriorityQueue R T) (h : q.data.length = 0) :
    takeItem q = (none, q) := by
  simp [takeItem, h]

theorem takeItem_nonempty (q : PriorityQueue R T) (h : q.data.length ≠ 0) :
    takeItem q = ((listSwap q.data 0 (q.data.length - 1)).getLast?,
      { data := siftDownLoop q.mode q.data.length q.data.length
          ((listSwap q.data 0 (q.data.length - 1)).dropLast) 0,
        mode := q.mode }) := by
  simp [takeItem, h]

theorem takeItem_heapInv {q : PriorityQueue R T}
    (hinv : heapInv q.mode q.data) : heapInv q.mode (takeItem q).2.data := by
  by_cases h0 : q.data.length = 0
  · rw [takeItem_empty q h0]
    exact hinv
  · obtain ⟨hex, hdom⟩ := take_entry_invariants hinv
    rw [takeItem_nonempty q h0]
    apply siftDownLoop_heapInv q.data.length q.data.length _ 0 _ (by omega) hex hdom
    rw [List.length_dropLast, length_listSwap]
    omega

theorem take_heapInv {q : PriorityQueue R T}
    (hinv : heapInv q.mode q.data) : heapInv q.mode (take q).2.data :=
  takeItem_heapInv hinv

/-! ### Lengths, membership, and what `take` returns -/

theorem siftDownLoop_length {mode : PriorityMode} :
    ∀ (fuel bound : Nat) (data : List (PriorityItem R T)) (idx : Nat),
    (siftDownLoop mode fuel bound data idx).length = data.length := by
  intro fuel
  induction fuel with
  | zero => intro bound data idx; rfl
  | succ fuel ih =>
    intro bound data idx
    by_cases hb : idx < bound
    · cases hbc : bestChild mode data idx with
      | none => rw [siftDownLoop_succ_none hb hbc]
      | some child =>
        rw [siftDownLoop_succ_some hb hbc]
        by_cases hv : violatesHeapProperty mode data idx child = true
        · rw [if_pos hv, ih, length_listSwap]
        · rw [if_neg hv]
    · rw [siftDownLoop_stop hb]

theorem mem_siftDownLoop {mode : PriorityMode} :
    ∀ (fuel bound : Nat) (data : List (PriorityItem R T)) (idx : Nat) {a : PriorityItem R T},
    a ∈ siftDownLoop mode fuel bound data idx → a ∈ data := by
  intro fuel
  induction fuel with
  | zero => intro bound data idx a h; exact h
  | succ fuel ih =>
    intro bound data idx a h
    by_cases hb : idx < bound
    · cases hbc : bestChild mode data idx with
      | none => rw [siftDownLoop_succ_none hb hbc] at h; exact h
      | some child =>
        rw [siftDownLoop_succ_some hb hbc] at h
        by_cases hv : violatesHeapProperty mode data idx child = true
        · rw [if_pos hv] at h
          exact mem_listSwap (ih bound _ child h)
        · rw [if_neg hv] at h; exact h
    · rw [siftDownLoop_stop hb] at h; exact h

theorem siftUpLoop_length {mode : PriorityMode} :
    ∀ (fuel : Nat) (data : List (PriorityItem R T)) (idx : Nat),
    (siftUpLoop mode fuel data idx).length = data.length := by
  intro fuel
  induction fuel with
  | zero => intro data idx; rfl
  | succ fuel ih =>
    intro data idx
    by_cases h0 : idx = 0
    · subst h0; rw [siftUpLoop_stop0]
    · rw [siftUpLoop_succ h0]
      by_cases hv : violatesHeapProperty mode data ((idx - 1) / 2) idx = true
      · rw [if_pos hv, ih, length_listSwap]
      · rw [if_neg hv]

theorem mem_siftUpLoop {mode : PriorityMode} :
    ∀ (fuel : Nat) (data : List (PriorityItem R T)) (idx : Nat) {a : PriorityItem R T},
    a ∈ siftUpLoop mode fuel data idx → a ∈ data := by
  intro fuel
  induction fuel with
  | zero => intro data idx a h; exact h
  | succ fuel ih =>
    intro data idx a h
    by_cases h0 : idx = 0
    · subst h0; rw [siftUpLoop_stop0] at h; exact h
    · rw [siftUpLoop_succ h0] at h
      by_cases hv : violatesHeapProperty mode data ((idx - 1) / 2) idx = true
      · rw [if_pos hv] at h
        exact mem_listSwap (ih _ _ h)
      · rw [if_neg hv] at h; exact h

theorem insert_length (q : PriorityQueue R T) (r : R) (t : T) :
    (insert q r t).data.length = q.data.length + 1 := by
  rw [insert_data, siftUpLoop_length, List.length_append, List.length_singleton]

theorem takeItem_mode (q : PriorityQueue R T) : (takeItem q).2.mode = q.mode := by
  by_cases h0 : q.data.length = 0
  · rw [takeItem_empty q h0]
  · rw [takeItem_nonempty q h0]

theorem takeItem_length {q : PriorityQueue R T} (h0 : q.data.length ≠ 0) :
    (takeItem q).2.data.length = q.data.length - 1 := by
  rw [takeItem_nonempty q h0]
  show (siftDownLoop q.mode q.data.length q.data.length
    ((listSwap q.data 0 (q.data.length - 1)).dropLast) 0).length = _
  rw [siftDownLoop_length, List.length_dropLast, length_listSwap]

/-- The pair captured by the pop in `take` is the entry that was stored
at the root before the call. -/
theorem takeItem_fst {q : PriorityQueue R T} (h0 : q.data.length ≠ 0) :
    (takeItem q).1 = q.data[0]? := by
  rw [takeItem_nonempty q h0]
  show (listSwap q.data 0 (q.data.length - 1)).getLast? = _
  rw [List.getLast?_eq_getElem?, length_listSwap,
    listSwap_getElem q.data 0 (q.data.length - 1) (q.data.length - 1) (by omega) (by omega),
    if_pos rfl]

theorem mem_takeItem {q : PriorityQueue R T} {a : PriorityItem R T}
    (h : a ∈ (takeItem q).2.data) : a ∈ q.data := by
  by_cases h0 : q.data.length = 0
  · rw [takeItem_empty q h0] at h; exact h
  · rw [takeItem_nonempty q h0] at h
    exact mem_listSwap (List.mem_of_mem_dropLast (mem_siftDownLoop _ _ _ _ h))

/-- In a heap, the root entry does not lose to any entry. -/
theorem heapInv_root_best {mode : PriorityMode} {data : List (PriorityItem R T)}
    (hinv : heapInv mode data) :
    ∀ i : Nat, ∀ x ∈ data[0]?, ∀ y ∈ data[i]?, modeLe mode x.priority y.priority := by
  intro i
  induction i using Nat.strong_induction_on with
  | _ i ih =>
    intro x hx y hy
    rcases Nat.eq_zero_or_pos i with h0 | hpos
    · subst h0
      rw [Option.mem_def] at hx hy
      rw [hx] at hy
      cases hy
      exact modeLe_refl _ _
    · have hyl := lt_length_of_getElem (Option.mem_def.mp hy)
      obtain ⟨z, hz⟩ : ∃ z, data[(i - 1) / 2]? = some z :=
        ⟨_, getElem_of_lt (l := data) (by omega)⟩
      have h1 : modeLe mode x.priority z.priority :=
        ih ((i - 1) / 2) (by omega) x hx z (Option.mem_def.mpr hz)
      have h2 : modeLe mode z.priority y.priority :=
        hinv i hpos z (Option.mem_def.mpr hz) y hy
      exact modeLe_trans h1 h2

/-- A member of the queue after `takeItem` was a member before, and the
returned pair was a member before. -/
theorem takeItem_fst_mem {q : PriorityQueue R T} {x : PriorityItem R T}
    (h : (takeItem q).1 = some x) : x ∈ q.data := by
  by_cases h0 : q.data.length = 0
  · rw [takeItem_empty q h0] at h
    cases h
  · rw [takeItem_fst h0] at h
    exact List.getElem?_mem h

/-! ### Fuel sufficiency: both loops stabilise at their natural fuel -/

theorem siftUpLoop_fuel_congr {mode : PriorityMode} :
    ∀ (idx f g : Nat) (data : List (PriorityItem R T)),
    idx ≤ f → idx ≤ g → siftUpLoop mode f data idx = siftUpLoop mode g data idx := by
  intro idx
  induction idx using Nat.strong_induction_on with
  | _ idx ih =>
    intro f g data hf hg
    by_cases h0 : idx = 0
    · subst h0
      cases f with
      | zero =>
        cases g with
        | zero => rfl
        | succ g => rw [siftUpLoop_zero, siftUpLoop_stop0]
      | succ f =>
        cases g with
        | zero => rw [siftUpLoop_zero, siftUpLoop_stop0]
        | succ g => rw [siftUpLoop_stop0, siftUpLoop_stop0]
    · obtain ⟨f, rfl⟩ : ∃ k, f = k + 1 := ⟨f - 1, by omega⟩
      obtain ⟨g, rfl⟩ : ∃ k, g = k + 1 := ⟨g - 1, by omega⟩
      rw [siftUpLoop_succ h0, siftUpLoop_succ h0]
      by_cases hv : violatesHeapProperty mode data ((idx - 1) / 2) idx = true
      · rw [if_pos hv, if_pos hv]
        exact ih ((idx - 1) / 2) (by omega) f g _ (by omega) (by omega)
      · rw [if_neg hv, if_neg hv]

theorem siftDownLoop_fuel_congr {mode : PriorityMode} :
    ∀ (d bound idx : Nat), bound - idx = d →
    ∀ (f g : Nat) (data : List (PriorityItem R T)),
    d ≤ f → d ≤ g → siftDownLoop mode f bound data idx = siftDownLoop mode g bound data idx := by
  intro d
  induction d using Nat.strong_induction_on with
  | _ d ih =>
    intro bound idx hd f g data hf hg
    by_cases hb : idx < bound
    · obtain ⟨f, rfl⟩ : ∃ k, f = k + 1 := ⟨f - 1, by omega⟩
      obtain ⟨g, rfl⟩ : ∃ k, g = k + 1 := ⟨g - 1, by omega⟩
      cases hbc : bestChild mode data idx with
      | none => rw [siftDownLoop_succ_none hb hbc, siftDownLoop_succ_none hb hbc]
      | some child =>
        rw [siftDownLoop_succ_some hb hbc, siftDownLoop_succ_some hb hbc]
        by_cases hv : violatesHeapProperty mode data idx child = true
        · rw [if_pos hv, if_pos hv]
          obtain ⟨hcl, hc12, hic⟩ := bestChild_eq_some hbc
          exact ih (bound - child) (by omega) bound child rfl f g _ (by omega) (by omega)
        · rw [if_neg hv, if_neg hv]
    · cases f with
      | zero =>
        cases g with
        | zero => rfl
        | succ g => rw [siftDownLoop_zero, siftDownLoop_stop hb]
      | succ f =>
        cases g with
        | zero => rw [siftDownLoop_zero, siftDownLoop_stop hb]
        | succ g => rw [siftDownLoop_stop hb, siftDownLoop_stop hb]

/-! ### The checked twins never fail: no out-of-bounds access, no
`parent(0)` underflow -/

theorem parentChecked_eq {idx : Nat} (h : idx ≠ 0) :
    parentChecked idx = some (parent idx) := by
  unfold parentChecked parent
  rw [if_neg h]

theorem violatesChecked_eq {mode : PriorityMode} {data : List (PriorityItem R T)}
    {p c : Nat} (hp : p < data.length) (hc : c < data.length) :
    violatesHeapPropertyChecked mode data p c =
      some (violatesHeapProperty mode data p c) := by
  unfold violatesHeapProperty violatesHeapPropertyChecked
  rw [getElem_of_lt hp, getElem_of_lt hc]

theorem listSwapChecked_eq {l : List α} {i j : Nat}
    (hi : i < l.length) (hj : j < l.length) :
    listSwapChecked l i j = some (listSwap l i j) := by
  unfold listSwap listSwapChecked
  rw [getElem_of_lt hi, getElem_of_lt hj]

theorem bestChildChecked_eq (mode : PriorityMode) (data : List (PriorityItem R T))
    (idx : Nat) : bestChildChecked mode data idx = some (bestChild mode data idx) := by
  unfold bestChildChecked bestChild children
  by_cases h1 : data.length ≤ idx * 2 + 1
  · simp [h1]
  · simp only [h1, if_false]
    by_cases h2 : data.length ≤ idx * 2 + 2
    · simp [h2]
    · simp only [h2, if_false]
      rw [violatesChecked_eq (by omega) (by omega)]
      cases hv : violatesHeapProperty mode data (idx * 2 + 1) (idx * 2 + 2) <;> rfl

theorem siftUpLoopChecked_stop0 {mode : PriorityMode} {fuel : Nat}
    {data : List (PriorityItem R T)} :
    siftUpLoopChecked mode (fuel + 1) data 0 = some data := by
  rw [siftUpLoopChecked]
  simp

theorem siftUpLoopChecked_succ {mode : PriorityMode} {fuel : Nat}
    {data : List (PriorityItem R T)} {idx : Nat} (h : idx ≠ 0) :
    siftUpLoopChecked mode (fuel + 1) data idx =
      if violatesHeapProperty mode data ((idx - 1) / 2) idx = true then
        siftUpLoopChecked mode fuel (listSwap data ((idx - 1) / 2) idx) ((idx - 1) / 2)
      else some data := by
  rw [siftUpLoopChecked, if_pos h, parentChecked_eq h]
  rfl

theorem siftUpLoopChecked_eq {mode : PriorityMode} :
    ∀ (fuel : Nat) (data : List (PriorityItem R T)) (idx : Nat),
    siftUpLoopChecked mode fuel data idx = some (siftUpLoop mode fuel data idx) := by
  intro fuel
  induction fuel with
  | zero => intro data idx; rfl
  | succ fuel ih =>
    intro data idx
    by_cases h0 : idx = 0
    · subst h0
      rw [siftUpLoopChecked_stop0, siftUpLoop_stop0]
    · rw [siftUpLoopChecked_succ h0, siftUpLoop_succ h0]
      by_cases hv : violatesHeapProperty mode data ((idx - 1) / 2) idx = true
      · rw [if_pos hv, if_pos hv, ih]
      · rw [if_neg hv, if_neg hv]

theorem insertChecked_eq (q : PriorityQueue R T) (r : R) (t : T) :
    insertChecked q r t = some (insert q r t) := by
  simp only [insertChecked, insert]
  rw [siftUpLoopChecked_eq]
  rfl

theorem siftDownLoopChecked_stop {mode : PriorityMode} {fuel bound : Nat}
    {data : List (PriorityItem R T)} {idx : Nat} (hb : ¬ idx < bound) :
    siftDownLoopChecked mode (fuel + 1) bound data idx = some data := by
  rw [siftDownLoopChecked, if_neg hb]

theorem siftDownLoopChecked_succ_none {mode : PriorityMode} {fuel bound : Nat}
    {data : List (PriorityItem R T)} {idx : Nat} (hb : idx < bound)
    (hbc : bestChild mode data idx = none) :
    siftDownLoopChecked mode (fuel + 1) bound data idx = some data := by
  rw [siftDownLoopChecked, if_pos hb, bestChildChecked_eq, hbc]

theorem siftDownLoopChecked_succ_some {mode : PriorityMode} {fuel bound : Nat}
    {data : List (PriorityItem R T)} {idx child : Nat} (hb : idx < bound)
    (hbc : bestChild mode data idx = some child) :
    siftDownLoopChecked mode (fuel + 1) bound data idx =
      match violatesHeapPropertyChecked mode data idx child with
      | none => none
      | some true =>
        match listSwapChecked data idx child with
        | none => none
        | some d => siftDownLoopChecked mode fuel bound d child
      | some false => some data := by
  rw [siftDownLoopChecked, if_pos hb, bestChildChecked_eq, hbc]

theorem siftDownLoopChecked_eq {mode : PriorityMode} :
    ∀ (fuel bound : Nat) (data : List (PriorityItem R T)) (idx : Nat),
    siftDownLoopChecked mode fuel bound data idx =
      some (siftDownLoop mode fuel bound data idx) := by
  intro fuel
  induction fuel with
  | zero => intro bound data idx; rfl
  | succ fuel ih =>
    intro bound data idx
    by_cases hb : idx < bound
    · cases hbc : bestChild mode data idx with
      | none => rw [siftDownLoopChecked_succ_none hb hbc, siftDownLoop_succ_none hb hbc]
      | some child =>
        obtain ⟨hcl, hc12, hic⟩ := bestChild_eq_some hbc
        rw [siftDownLoopChecked_succ_some hb hbc, siftDownLoop_succ_some hb hbc,
          violatesChecked_eq (by omega) hcl]
        cases hv : violatesHeapProperty mode data idx child with
        | false => rfl
        | true =>
          rw [listSwapChecked_eq (by omega : idx < data.length) hcl, if_pos rfl]
          exact ih bound (listSwap data idx child) child
    · rw [siftDownLoopChecked_stop hb, siftDownLoop_stop hb]

theorem take_as_takeItem (q : PriorityQueue R T) :
    take q = ((takeItem q).1.map (fun x => x.item), (takeItem q).2) := rfl

theorem takeChecked_eq (q : PriorityQueue R T) : takeChecked q = some (take q) := by
  by_cases h0 : q.data.length = 0
  · rw [take_as_takeItem, takeItem_empty q h0]
    simp [takeChecked, h0]
  · rw [take_as_takeItem, takeItem_nonempty q h0]
    show (if q.data.length = 0 then some ((none : Option R), q) else _) = _
    rw [if_neg h0]
    simp only [listSwapChecked_eq (show 0 < q.data.length by omega)
      (show q.data.length - 1 < q.data.length by omega), siftDownLoopChecked_eq]

/-! ### Whole-run properties -/

theorem heapInv_nil {mode : PriorityMode} : heapInv mode ([] : List (PriorityItem R T)) := by
  intro i hi x hx y hy
  rw [Option.mem_def] at hy
  simp at hy

theorem take_empty (q : PriorityQueue R T) (h : q.data.length = 0) :
    take q = (none, q) := by
  rw [take_as_takeItem, takeItem_empty q h]
  rfl

theorem take_isSome {q : PriorityQueue R T} (h0 : q.data.length ≠ 0) :
    (take q).1.isSome = true := by
  rw [take_as_takeItem]
  show ((takeItem q).1.map (fun x => x.item)).isSome = true
  rw [takeItem_fst h0, getElem_of_lt (show 0 < q.data.length by omega)]
  rfl

theorem runOps_heapInv :
    ∀ (ops : List (QueueOp R T)) (q : PriorityQueue R T),
    heapInv q.mode q.data →
    heapInv (runOps ops q).mode (runOps ops q).data ∧ (runOps ops q).mode = q.mode := by
  intro ops
  induction ops with
  | nil => intro q h; exact ⟨h, rfl⟩
  | cons op rest ih =>
    cases op with
    | ins r t =>
      intro q h
      show heapInv (runOps rest (insert q r t)).mode (runOps rest (insert q r t)).data ∧
        (runOps rest (insert q r t)).mode = q.mode
      obtain ⟨h1, h2⟩ := ih (insert q r t) (by rw [insert_mode]; exact insert_heapInv h)
      exact ⟨h1, by rw [h2, insert_mode]⟩
    | tk =>
      intro q h
      show heapInv (runOps rest (take q).2).mode (runOps rest (take q).2).data ∧
        (runOps rest (take q).2).mode = q.mode
      have hm : (take q).2.mode = q.mode := takeItem_mode q
      obtain ⟨h1, h2⟩ := ih (take q).2 (by rw [hm]; exact take_heapInv h)
      exact ⟨h1, by rw [h2, hm]⟩

theorem size_conservation :
    ∀ (ops : List (QueueOp R T)) (q : PriorityQueue R T),
    takeSuccesses ops q + (runOps ops q).data.length = numInserts ops + q.data.length := by
  intro ops
  induction ops with
  | nil => intro q; simp [takeSuccesses, runOps, numInserts]
  | cons op rest ih =>
    cases op with
    | ins r t =>
      intro q
      show takeSuccesses rest (insert q r t) + (runOps rest (insert q r t)).data.length =
        numInserts rest + 1 + q.data.length
      have := ih (insert q r t)
      rw [insert_length] at this
      omega
    | tk =>
      intro q
      show (if (take q).1.isSome then 1 else 0) + takeSuccesses rest (take q).2 +
        (runOps rest (take q).2).data.length = numInserts rest + q.data.length
      have := ih (take q).2
      by_cases h0 : q.data.length = 0
      · have hq1 : (take q).1 = none := by rw [take_empty q h0]
        have hq2 : (take q).2 = q := by rw [take_empty q h0]
        rw [hq2] at this
        rw [hq1, hq2]
        simp only [Option.isSome_none, Bool.false_eq_true, if_false]
        omega
      · rw [if_pos (take_isSome h0)]
        have hlen : (take q).2.data.length = q.data.length - 1 := takeItem_length h0
        omega

/-- Draining `n ≤ size` entries succeeds `n` times and produces
priorities that never lose to a later one; each drained priority was
stored in the queue. -/
theorem drainPriorities_spec :
    ∀ (n : Nat) (q : PriorityQueue R T), heapInv q.mode q.data → n ≤ q.data.length →
    (drainPriorities n q).length = n ∧
    List.Pairwise (modeLe q.mode) (drainPriorities n q) ∧
    ∀ t ∈ drainPriorities n q, ∃ y ∈ q.data, y.priority = t := by
  intro n
  induction n with
  | zero =>
    intro q _ _
    refine ⟨rfl, List.Pairwise.nil, ?_⟩
    intro t ht
    cases ht
  | succ n ih =>
    intro q hinv hn
    have h0 : q.data.length ≠ 0 := by omega
    obtain ⟨x, hx⟩ : ∃ x, (takeItem q).1 = some x := by
      rw [takeItem_fst h0]
      exact ⟨_, getElem_of_lt (show 0 < q.data.length by omega)⟩
    have hpair : takeItem q = (some x, (takeItem q).2) := by rw [← hx]
    have hd : drainPriorities (n + 1) q =
        x.priority :: drainPriorities n (takeItem q).2 := by
      rw [drainPriorities, hpair]
    have hinv' : heapInv (takeItem q).2.mode (takeItem q).2.data := by
      rw [takeItem_mode]
      exact takeItem_heapInv hinv
    have hlen' : (takeItem q).2.data.length = q.data.length - 1 := takeItem_length h0
    obtain ⟨ih1, ih2, ih3⟩ := ih (takeItem q).2 hinv' (by omega)
    rw [takeItem_mode] at ih2
    have hx0 : q.data[0]? = some x := by rw [← takeItem_fst h0]; exact hx
    refine ⟨by rw [hd, List.length_cons, ih1], ?_, ?_⟩
    · rw [hd]
      refine List.Pairwise.cons ?_ ih2
      intro t ht
      obtain ⟨y, hy, hyt⟩ := ih3 t ht
      obtain ⟨i, hyi⟩ := List.getElem?_of_mem (mem_takeItem hy)
      rw [← hyt]
      exact heapInv_root_best hinv i x (Option.mem_def.mpr hx0) y
        (Option.mem_def.mpr hyi)
    · rw [hd]
      intro t ht
      rcases List.mem_cons.mp ht with rfl | ht'
      · exact ⟨x, takeItem_fst_mem hx, rfl⟩
      · obtain ⟨y, hy, hyt⟩ := ih3 t ht'
        exact ⟨y, mem_takeItem hy, hyt⟩

/-- `heapInv` agrees with its executable check. -/
theorem heapInv_iff_heapInvB {mode : PriorityMode} {data : List (PriorityItem R T)} :
    heapInv mode data ↔ heapInvB mode data = true := by
  unfold heapInvB
  rw [List.all_eq_true]
  constructor
  · intro h i hi
    by_cases h0 : i = 0
    · simp [h0]
    · rw [if_neg h0]
      cases hx : data[(i - 1) / 2]? with
      | none => rfl
      | some x =>
        cases hy : data[i]? with
        | none => rfl
        | some y =>
          exact decide_eq_true
            (h i (by omega) x (Option.mem_def.mpr hx) y (Option.mem_def.mpr hy))
  · intro h i hi x hx y hy
    rw [Option.mem_def] at hx hy
    have hilen : i < data.length := lt_length_of_getElem hy
    have := h i (List.mem_range.mpr hilen)
    rw [if_neg (by omega), hx, hy] at this
    exact of_decide_eq_true this

theorem insertAll_spec :
    ∀ (items : List (R × T)) (q : PriorityQueue R T),
    heapInv q.mode q.data →
    heapInv (insertAll q items).mode (insertAll q items).data ∧
      (insertAll q items).mode = q.mode ∧
      (insertAll q items).data.length = q.data.length + items.length := by
  intro items
  induction items with
  | nil => intro q h; exact ⟨h, rfl, rfl⟩
  | cons it rest ih =>
    intro q h
    obtain ⟨r, t⟩ := it
    show heapInv (insertAll (insert q r t) rest).mode (insertAll (insert q r t) rest).data ∧
      (insertAll (insert q r t) rest).mode = q.mode ∧
      (insertAll (insert q r t) rest).data.length = q.data.length + ((r, t) :: rest).length
    obtain ⟨h1, h2, h3⟩ := ih (insert q r t) (by rw [insert_mode]; exact insert_heapInv h)
    refine ⟨h1, by rw [h2]; exact insert_mode q r t, ?_⟩
    rw [h3, insert_length, List.length_cons]
    omega

/-! ### Concrete instances used by the witnesses -/

/-- A three-entry minimize-head queue already in heap order. -/
def exampleMinQ : PriorityQueue Nat Nat :=
  { data := [{ item := 5, priority := 1 }, { item := 6, priority := 2 },
             { item := 7, priority := 3 }],
    mode := PriorityMode.MinimizeHead }

/-- A four-entry minimize-head queue already in heap order. -/
def exampleMin4 : PriorityQueue Nat Nat :=
  { data := [{ item := 5, priority := 1 }, { item := 6, priority := 2 },
             { item := 7, priority := 3 }, { item := 8, priority := 4 }],
    mode := PriorityMode.MinimizeHead }

/-- Three (item, priority) pairs whose priorities are a permutation of
`0..2`. -/
def exampleItems : List (Nat × Nat) :=
  [(10, 2), (11, 0), (12, 1)]

/-- A mixed operation sequence: two inserts, three takes. -/
def exampleOps : List (QueueOp Nat Nat) :=
  [QueueOp.ins 1 10, QueueOp.ins 2 5, QueueOp.tk, QueueOp.tk, QueueOp.tk]

/-! ### The claims -/

/-- C1: every state reachable from a fresh queue by any sequence of
`insert` and `take` operations, in either mode, satisfies the heap
invariant: for every non-root index `i` of the live sequence, the entry
at `(i-1)/2` does not violate the heap property relative to the entry
at `i` under the configured mode (`modeLe`: parent ≤ child for
`MinimizeHead`, parent ≥ child for `MaximizeHead`). -/
theorem claim_C1 (hint : Nat) (mode : PriorityMode) (ops : List (QueueOp R T)) :
    heapInv mode (runOps ops (PriorityQueue.new (R := R) (T := T) hint mode)).data := by
  obtain ⟨h1, h2⟩ :=
    runOps_heapInv ops (PriorityQueue.new (R := R) (T := T) hint mode) heapInv_nil
  rw [h2] at h1
  exact h1

/-- C2: on a non-empty queue satisfying the heap invariant, `take`
returns the item of the entry stored at index 0 before the call, that
entry's priority does not lose to any stored priority under the
configured mode (minimal for `MinimizeHead`, maximal for
`MaximizeHead`), and the entry count decreases by exactly one. -/
theorem claim_C2 (q : PriorityQueue R T) (hinv : heapInv q.mode q.data)
    (h0 : 0 < q.data.length) :
    ∃ x : PriorityItem R T, q.data[0]? = some x ∧ (take q).1 = some x.item ∧
      (∀ y ∈ q.data, modeLe q.mode x.priority y.priority) ∧
      q.data.length = (take q).2.data.length + 1 := by
  obtain ⟨x, hx⟩ : ∃ x, q.data[0]? = some x := ⟨_, getElem_of_lt h0⟩
  refine ⟨x, hx, ?_, ?_, ?_⟩
  · rw [take_as_takeItem]
    show (takeItem q).1.map (fun z => z.item) = some x.item
    rw [takeItem_fst (by omega), hx]
    rfl
  · intro y hy
    obtain ⟨i, hyi⟩ := List.getElem?_of_mem hy
    exact heapInv_root_best hinv i x (Option.mem_def.mpr hx) y (Option.mem_def.mpr hyi)
  · rw [take_as_takeItem]
    show q.data.length = (takeItem q).2.data.length + 1
    rw [takeItem_length (by omega)]
    omega

theorem claim_C2_witness :
    heapInv exampleMinQ.mode exampleMinQ.data ∧ 0 < exampleMinQ.data.length ∧
      ∃ x : PriorityItem Nat Nat, exampleMinQ.data[0]? = some x ∧
        (take exampleMinQ).1 = some x.item ∧
        (∀ y ∈ exampleMinQ.data, modeLe exampleMinQ.mode x.priority y.priority) ∧
        exampleMinQ.data.length = (take exampleMinQ).2.data.length + 1 :=
  ⟨heapInv_iff_heapInvB.mpr (by decide), by decide,
    claim_C2 exampleMinQ (heapInv_iff_heapInvB.mpr (by decide)) (by decide)⟩

/-- C3: inserting any list of items whose priorities are a permutation
of `0..N-1` into a fresh queue and draining `N` entries yields exactly
`N` priorities, non-decreasing for a minimize-head queue and
non-increasing for a maximize-head queue. -/
theorem claim_C3 (N hint : Nat) (mode : PriorityMode) (items : List (R × Nat))
    (hperm : (items.map Prod.snd).Perm (List.range N)) :
    (drainPriorities N (insertAll (PriorityQueue.new hint mode) items)).length = N ∧
    (mode = PriorityMode.MinimizeHead →
      List.Pairwise (fun a b => a ≤ b)
        (drainPriorities N (insertAll (PriorityQueue.new hint mode) items))) ∧
    (mode = PriorityMode.MaximizeHead →
      List.Pairwise (fun a b => b ≤ a)
        (drainPriorities N (insertAll (PriorityQueue.new hint mode) items))) := by
  obtain ⟨h1, h2, h3⟩ :=
    insertAll_spec items (PriorityQueue.new (R := R) (T := Nat) hint mode) heapInv_nil
  have hlen : items.length = N := by
    have := hperm.length_eq
    rw [List.length_map, List.length_range] at this
    exact this
  have hN : N ≤ (insertAll (PriorityQueue.new (R := R) (T := Nat) hint mode) items).data.length := by
    rw [h3]
    simp [hlen]
  obtain ⟨d1, d2, d3⟩ := drainPriorities_spec N _ h1 hN
  rw [h2] at d2
  refine ⟨d1, ?_, ?_⟩
  · intro hm
    subst hm
    exact d2.imp (fun h => h)
  · intro hm
    subst hm
    exact d2.imp (fun h => h)

theorem claim_C3_witness :
    (exampleItems.map Prod.snd).Perm (List.range 3) ∧
    ((drainPriorities 3 (insertAll (PriorityQueue.new 100 PriorityMode.MinimizeHead) exampleItems)).length = 3 ∧
     (PriorityMode.MinimizeHead = PriorityMode.MinimizeHead →
       List.Pairwise (fun a b => a ≤ b)
         (drainPriorities 3 (insertAll (PriorityQueue.new 100 PriorityMode.MinimizeHead) exampleItems))) ∧
     (PriorityMode.MinimizeHead = PriorityMode.MaximizeHead →
       List.Pairwise (fun a b => b ≤ a)
         (drainPriorities 3 (insertAll (PriorityQueue.new 100 PriorityMode.MinimizeHead) exampleItems)))) :=
  ⟨by decide, claim_C3 3 100 PriorityMode.MinimizeHead exampleItems (by decide)⟩

/-- C4: the sift-down phase of `take` never performs an out-of-bounds
access: the checked model of `take`, in which every existence check,
element comparison and swap fails on an index outside the live
(post-pop) sequence, succeeds and agrees with `take` on every queue;
likewise the checked sift-down loop agrees with the unchecked one for
every bound (in particular the pre-pop `heap_len` captured at line 99),
so no comparison or swap ever reads the slot vacated by the pop. -/
theorem claim_C4 (q : PriorityQueue R T) :
    takeChecked q = some (take q) ∧
    ∀ (mode : PriorityMode) (fuel bound : Nat) (data : List (PriorityItem R T)) (idx : Nat),
      siftDownLoopChecked mode fuel bound data idx =
        some (siftDownLoop mode fuel bound data idx) :=
  ⟨takeChecked_eq q, fun _ fuel bound data idx => siftDownLoopChecked_eq fuel bound data idx⟩

/-- C5: `best_child(idx)` returns none when no child index is within
the current length, the first child `2*idx+1` when only it is within
the length, and when both are within the length the child winning the
mutual comparison under the mode (the smaller priority for
`MinimizeHead`, the larger for `MaximizeHead`), preferring the first
child on ties. -/
theorem claim_C5 (mode : PriorityMode) (data : List (PriorityItem R T)) (idx : Nat) :
    (data.length ≤ idx * 2 + 1 → bestChild mode data idx = none) ∧
    (idx * 2 + 1 < data.length → data.length ≤ idx * 2 + 2 →
      bestChild mode data idx = some (idx * 2 + 1)) ∧
    (∀ x y : PriorityItem R T, data[idx * 2 + 1]? = some x → data[idx * 2 + 2]? = some y →
      bestChild mode data idx = some
        (match mode with
         | PriorityMode.MinimizeHead =>
           if y.priority < x.priority then idx * 2 + 2 else idx * 2 + 1
         | PriorityMode.MaximizeHead =>
           if x.priority < y.priority then idx * 2 + 2 else idx * 2 + 1)) := by
  refine ⟨?_, ?_, ?_⟩
  · intro h
    simp [bestChild, children, h]
  · intro h1 h2
    simp only [bestChild, children]
    rw [if_neg (show ¬ data.length ≤ idx * 2 + 1 from by omega), if_pos h2]
  · intro x y hx hy
    have hx1 : idx * 2 + 1 < data.length := lt_length_of_getElem hx
    have hx2 : idx * 2 + 2 < data.length := lt_length_of_getElem hy
    simp only [bestChild, children]
    rw [if_neg (show ¬ data.length ≤ idx * 2 + 1 from by omega),
      if_neg (show ¬ data.length ≤ idx * 2 + 2 from by omega)]
    have hviol : violatesHeapProperty mode data (idx * 2 + 1) (idx * 2 + 2) =
        (match mode with
         | PriorityMode.MinimizeHead => decide (y.priority < x.priority)
         | PriorityMode.MaximizeHead => decide (x.priority < y.priority)) := by
      unfold violatesHeapProperty
      rw [hx, hy]
    cases mode
    · by_cases hlt : y.priority < x.priority <;> simp [hviol, hlt]
    · by_cases hlt : x.priority < y.priority <;> simp [hviol, hlt]

theorem claim_C5_witness :
    (exampleMin4.data.length ≤ 2 * 2 + 1 ∧
      bestChild PriorityMode.MinimizeHead exampleMin4.data 2 = none) ∧
    (1 * 2 + 1 < exampleMin4.data.length ∧ exampleMin4.data.length ≤ 1 * 2 + 2 ∧
      bestChild PriorityMode.MinimizeHead exampleMin4.data 1 = some (1 * 2 + 1)) ∧
    (exampleMin4.data[0 * 2 + 1]? = some (PriorityItem.mk 6 2) ∧
      exampleMin4.data[0 * 2 + 2]? = some (PriorityItem.mk 7 3) ∧
      bestChild PriorityMode.MinimizeHead exampleMin4.data 0 = some 1) :=
  ⟨⟨by decide, (claim_C5 PriorityMode.MinimizeHead exampleMin4.data 2).1 (by decide)⟩,
   ⟨by decide, by decide,
     (claim_C5 PriorityMode.MinimizeHead exampleMin4.data 1).2.1 (by decide) (by decide)⟩,
   ⟨rfl, rfl, by
     have := (claim_C5 PriorityMode.MinimizeHead exampleMin4.data 0).2.2
       (PriorityItem.mk 6 2) (PriorityItem.mk 7 3) rfl rfl
     simpa using this⟩⟩

/-- C6: for in-bounds indices, `violates_heap_property` is true exactly
when the parent priority is greater than the child priority in
`MinimizeHead` mode and exactly when it is smaller in `MaximizeHead`
mode; equal priorities never violate in either mode. -/
theorem claim_C6 (mode : PriorityMode) (data : List (PriorityItem R T))
    (p c : Nat) (x y : PriorityItem R T)
    (hx : data[p]? = some x) (hy : data[c]? = some y) :
    (violatesHeapProperty mode data p c = true ↔
      (match mode with
       | PriorityMode.MinimizeHead => x.priority > y.priority
       | PriorityMode.MaximizeHead => x.priority < y.priority)) ∧
    (x.priority = y.priority → violatesHeapProperty mode data p c = false) := by
  constructor
  · unfold violatesHeapProperty
    rw [hx, hy]
    cases mode <;> simp [gt_iff_lt]
  · intro heq
    unfold violatesHeapProperty
    rw [hx, hy]
    cases mode <;> simp [heq]

theorem claim_C6_witness :
    exampleMin4.data[0]? = some (PriorityItem.mk 5 1) ∧
    exampleMin4.data[1]? = some (PriorityItem.mk 6 2) ∧
    ((violatesHeapProperty PriorityMode.MinimizeHead exampleMin4.data 0 1 = true ↔
        (1 : Nat) > 2) ∧
      ((1 : Nat) = 2 →
        violatesHeapProperty PriorityMode.MinimizeHead exampleMin4.data 0 1 = false)) :=
  ⟨rfl, rfl,
    claim_C6 PriorityMode.MinimizeHead exampleMin4.data 0 1
      (PriorityItem.mk 5 1) (PriorityItem.mk 6 2) rfl rfl⟩

/-- C7: `take` on a queue holding zero entries returns no item and
leaves the state unchanged (same empty sequence, same mode); in
particular `take` on a freshly constructed queue, for every capacity
hint and mode, returns no item. -/
theorem claim_C7 :
    (∀ q : PriorityQueue R T, q.data = [] → take q = (none, q)) ∧
    (∀ (hint : Nat) (mode : PriorityMode),
      take (PriorityQueue.new (R := R) (T := T) hint mode) =
        (none, PriorityQueue.new hint mode)) := by
  constructor
  · intro q h
    exact take_empty q (by rw [h]; rfl)
  · intro hint mode
    exact take_empty _ rfl

theorem claim_C7_witness :
    (PriorityQueue.new 100 PriorityMode.MinimizeHead : PriorityQueue Nat Nat).data = [] ∧
    take (PriorityQueue.new 100 PriorityMode.MinimizeHead : PriorityQueue Nat Nat) =
      (none, PriorityQueue.new 100 PriorityMode.MinimizeHead) :=
  ⟨rfl, (claim_C7 (R := Nat) (T := Nat)).1 _ rfl⟩

/-- C8: over any operation sequence on a fresh queue, the number of
takes that returned an item plus the number of remaining entries equals
the number of inserts; each insert grows the entry count by one, a take
on a non-empty queue returns an item and shrinks the count by one, and
a take on an empty queue returns no item and leaves the state
unchanged. -/
theorem claim_C8 (hint : Nat) (mode : PriorityMode) (ops : List (QueueOp R T)) :
    (takeSuccesses ops (PriorityQueue.new hint mode) +
      (runOps ops (PriorityQueue.new (R := R) (T := T) hint mode)).data.length =
      numInserts ops) ∧
    (∀ (q : PriorityQueue R T) (r : R) (t : T),
      (insert q r t).data.length = q.data.length + 1) ∧
    (∀ q : PriorityQueue R T, 0 < q.data.length →
      (take q).1.isSome = true ∧ q.data.length = (take q).2.data.length + 1) ∧
    (∀ q : PriorityQueue R T, q.data.length = 0 → take q = (none, q)) := by
  refine ⟨?_, ?_, ?_, ?_⟩
  · have := size_conservation ops (PriorityQueue.new (R := R) (T := T) hint mode)
    simpa using this
  · exact insert_length
  · intro q h0
    refine ⟨take_isSome (by omega), ?_⟩
    have := takeItem_length (q := q) (by omega)
    rw [take_as_takeItem]
    show q.data.length = (takeItem q).2.data.length + 1
    omega
  · intro q h
    exact take_empty q h

theorem claim_C8_witness :
    (takeSuccesses exampleOps (PriorityQueue.new 4 PriorityMode.MinimizeHead) +
      (runOps exampleOps (PriorityQueue.new (R := Nat) (T := Nat) 4 PriorityMode.MinimizeHead)).data.length =
      numInserts exampleOps) ∧
    0 < exampleMinQ.data.length ∧
    ((take exampleMinQ).1.isSome = true ∧
      exampleMinQ.data.length = (take exampleMinQ).2.data.length + 1) :=
  ⟨(claim_C8 4 PriorityMode.MinimizeHead exampleOps).1, by decide,
    (claim_C8 4 PriorityMode.MinimizeHead exampleOps).2.2.1 exampleMinQ (by decide)⟩

/-- C9: `parent(i)` computes `(i-1)/2` with floor division for every
`i ≠ 0`, and within the implementation `parent` is never invoked with
argument 0: the checked sift-up loop, in which a `parent(0)` call (the
`usize` underflow) fails, always succeeds and agrees with the unchecked
loop, and so does checked `insert`; `take` contains no `parent` call. -/
theorem claim_C9 :
    (∀ i : Nat, i ≠ 0 → parent i = (i - 1) / 2) ∧
    (∀ (mode : PriorityMode) (fuel : Nat) (data : List (PriorityItem R T)) (idx : Nat),
      siftUpLoopChecked mode fuel data idx = some (siftUpLoop mode fuel data idx)) ∧
    (∀ (q : PriorityQueue R T) (r : R) (t : T),
      insertChecked q r t = some (insert q r t)) :=
  ⟨fun _ _ => rfl,
   fun _ fuel data idx => siftUpLoopChecked_eq fuel data idx,
   insertChecked_eq⟩

theorem claim_C9_witness :
    (5 : Nat) ≠ 0 ∧ parent 5 = (5 - 1) / 2 ∧
    insertChecked exampleMinQ 9 0 = some (insert exampleMinQ 9 0) :=
  ⟨by decide, (claim_C9 (R := Nat) (T := Nat)).1 5 (by decide),
    (claim_C9 (R := Nat) (T := Nat)).2.2 exampleMinQ 9 0⟩

/-- C10: both fix-up loops terminate: the sift-up loop needs at most
`idx` iterations (the cursor moves to the strictly smaller parent
index) and the sift-down loop at most `bound - idx` iterations (the
cursor moves to a strictly larger child index), so giving either loop
any more fuel does not change its result. -/
theorem claim_C10 (mode : PriorityMode) :
    (∀ (f : Nat) (data : List (PriorityItem R T)) (idx : Nat), idx ≤ f →
      siftUpLoop mode f data idx = siftUpLoop mode idx data idx) ∧
    (∀ (f bound : Nat) (data : List (PriorityItem R T)) (idx : Nat), bound - idx ≤ f →
      siftDownLoop mode f bound data idx =
        siftDownLoop mode (bound - idx) bound data idx) :=
  ⟨fun f data idx hf => siftUpLoop_fuel_congr idx f idx data hf le_rfl,
   fun f bound data idx hf =>
     siftDownLoop_fuel_congr (bound - idx) bound idx rfl f (bound - idx) data hf le_rfl⟩

theorem claim_C10_witness :
    ((3 : Nat) ≤ 10 ∧
      siftUpLoop PriorityMode.MinimizeHead 10 exampleMin4.data 3 =
        siftUpLoop PriorityMode.MinimizeHead 3 exampleMin4.data 3) ∧
    ((4 : Nat) - 0 ≤ 9 ∧
      siftDownLoop PriorityMode.MinimizeHead 9 4 exampleMin4.data 0 =
        siftDownLoop PriorityMode.MinimizeHead (4 - 0) 4 exampleMin4.data 0) :=
  ⟨⟨by decide, (claim_C10 PriorityMode.MinimizeHead).1 10 exampleMin4.data 3 (by decide)⟩,
   ⟨by decide, (claim_C10 PriorityMode.MinimizeHead).2 9 4 exampleMin4.data 0 (by decide)⟩⟩

end RustPQ
